import Mathlib

/-
Shallow embedding of the calendar state manager (useCalendarState) of this
repository.  Dates from the external date library are represented by their
calendar-system identifier together with their absolute day number: the
state logic only ever uses comparison, day arithmetic, duration arithmetic
and calendar conversion, all of which are determined by the absolute day.
A DateDuration is represented by its length in days.
-/

namespace ReactStately

/-- A date of the external date library: a point in a specific calendar
system.  Only the calendar identifier and the absolute (conversion
invariant) day number are relevant to the state logic. -/
structure CalendarDate where
  calendar : String
  day : Int
deriving DecidableEq, Repr

/-- The compare method of the date library: negative when the first date
denotes an earlier absolute day, zero on the same day, positive when later. -/
def CalendarDate.compare (a b : CalendarDate) : Int := a.day - b.day

/-- Adding a number of days to a date (date.add of the date library,
restricted to day durations; subtraction passes a negative count). -/
def CalendarDate.addDays (a : CalendarDate) (n : Int) : CalendarDate :=
  { a with day := a.day + n }

/-- The toCalendar function of the date library: converts a date into the
given calendar system; the result denotes the same absolute day. -/
def toCalendar (cal : String) (a : CalendarDate) : CalendarDate :=
  { calendar := cal, day := a.day }

/-- The isSameDay function of the date library: both dates denote the same
absolute day, regardless of calendar system. -/
def isSameDay (a b : CalendarDate) : Bool := a.day == b.day

/-- A value supplied by the application (DateValue): a date, optionally
carrying a time of day (the code tests for an hour field) and a time zone. -/
structure DateValue where
  calendar : String
  day : Int
  hour : Option Nat
  timeZone : Option String
deriving DecidableEq, Repr

/-- The set method of a date-time value applied to a CalendarDate: replaces
only the date fields, keeping the time of day and the time zone.  The hook
always calls it with a date already converted into the calendar of the
value, so the calendar identifier is unchanged. -/
def DateValue.set (v : DateValue) (d : CalendarDate) : DateValue :=
  { v with day := d.day }

/-- A plain CalendarDate viewed as an emitted value: no time of day and no
time zone attached. -/
def CalendarDate.toDateValue (d : CalendarDate) : DateValue :=
  { calendar := d.calendar, day := d.day, hour := none, timeZone := none }

/-- The identifier of the Gregorian calendar system, as produced by
new GregorianCalendar() of the date library. -/
def gregorian : String := "gregory"

/-- The configuration of the hook that the focus and window logic reads:
the optional bounds and the visible duration (as a day count). -/
structure Config where
  minValue : Option CalendarDate
  maxValue : Option CalendarDate
  visibleDuration : Nat
deriving DecidableEq, Repr

/-- Modelled from the spec: the utils module of this repository (imported
by the hook but absent from the given sources) provides isInvalid, which
the spec describes as the date lying outside the closed interval from
minValue to maxValue, each bound checked only when given. -/
def isInvalid (date : CalendarDate) (minValue maxValue : Option CalendarDate) : Bool :=
  (match minValue with
    | some m => decide (date.compare m < 0)
    | none => false) ||
  (match maxValue with
    | some m => decide (date.compare m > 0)
    | none => false)

/-- Modelled from the spec: the utils module provides constrainValue, which
the spec describes as silently clamping a date to the bounds: a date before
minValue becomes minValue, a date after maxValue becomes maxValue, in the
calendar system of the input date. -/
def constrainValue (date : CalendarDate) (minValue maxValue : Option CalendarDate) :
    CalendarDate :=
  let lower := match minValue with
    | some m => if date.compare m < 0 then toCalendar date.calendar m else date
    | none => date
  match maxValue with
  | some m => if lower.compare m > 0 then toCalendar lower.calendar m else lower
  | none => lower

/-- Modelled from the spec: the utils module provides constrainStart, used
by page navigation to derive the new window start from a candidate start.
The spec assigns it no behaviour beyond page navigation preserving the
window length, so it returns the candidate start. -/
def constrainStart (_focusedDate aligned : CalendarDate) (_duration : Nat)
    (_minValue _maxValue : Option CalendarDate) : CalendarDate := aligned

/-- Modelled from the spec: the utils module provides alignStart, which the
spec describes as placing the visible window so that the given date is at
its start; the spec gives the bound parameters no further role. -/
def alignStart (date : CalendarDate) (_duration : Nat)
    (_minValue _maxValue : Option CalendarDate) : CalendarDate := date

/-- Modelled from the spec: the utils module provides alignEnd, which the
spec describes as placing the visible window so that the given date is at
its end, hence the start is the date minus the duration plus one day. -/
def alignEnd (date : CalendarDate) (duration : Nat)
    (_minValue _maxValue : Option CalendarDate) : CalendarDate :=
  date.addDays (1 - (duration : Int))

/-- Modelled from the spec: the utils module provides alignCenter, which
the spec describes as re-centering the visible window around the given
date. -/
def alignCenter (date : CalendarDate) (duration : Nat)
    (_minValue _maxValue : Option CalendarDate) : CalendarDate :=
  date.addDays (-(((duration : Int) - 1) / 2))

/-- The mutable state of the hook that the reconciliation logic touches:
the focused date and the start of the visible window. -/
structure CalState where
  focusedDate : CalendarDate
  startDate : CalendarDate
deriving DecidableEq, Repr

/-- The derived end of the visible window: startDate plus visibleDuration
minus one day. -/
def endDate (cfg : Config) (s : CalState) : CalendarDate :=
  s.startDate.addDays ((cfg.visibleDuration : Int) - 1)

/-- The per-render reconciliation of the hook body: if the focused date is
invalid it is constrained to the bounds; otherwise, if it precedes the
window start the window is aligned to end at it, and if it is at or past
the window start plus the visible duration the window is aligned to start
at it. -/
def reconcileOnce (cfg : Config) (s : CalState) : CalState :=
  if isInvalid s.focusedDate cfg.minValue cfg.maxValue then
    { s with focusedDate := constrainValue s.focusedDate cfg.minValue cfg.maxValue }
  else if s.focusedDate.compare s.startDate < 0 then
    { s with startDate := alignEnd s.focusedDate cfg.visibleDuration cfg.minValue cfg.maxValue }
  else if s.focusedDate.compare (s.startDate.addDays cfg.visibleDuration) ≥ 0 then
    { s with startDate := alignStart s.focusedDate cfg.visibleDuration cfg.minValue cfg.maxValue }
  else
    s

/-- The calendar-change step of the hook body: when the identifier of the
active calendar differs from the last seen identifier, the focused date is
converted into the new calendar and the window is re-centered around it. -/
def calendarChange (cfg : Config) (lastIdentifier identifier : String)
    (s : CalState) : CalState :=
  if identifier ≠ lastIdentifier then
    let newFocusedDate := toCalendar identifier s.focusedDate
    { focusedDate := newFocusedDate,
      startDate :=
        alignCenter newFocusedDate cfg.visibleDuration cfg.minValue cfg.maxValue }
  else
    s

/-- The focusCell helper: the date is constrained to the bounds and becomes
the focused date. -/
def focusCell (cfg : Config) (s : CalState) (date : CalendarDate) : CalState :=
  { s with focusedDate := constrainValue date cfg.minValue cfg.maxValue }

/-- focusNextDay: focus the cell one day after the focused date. -/
def focusNextDay (cfg : Config) (s : CalState) : CalState :=
  focusCell cfg s (s.focusedDate.addDays 1)

/-- focusPreviousDay: focus the cell one day before the focused date. -/
def focusPreviousDay (cfg : Config) (s : CalState) : CalState :=
  focusCell cfg s (s.focusedDate.addDays (-1))

/-- focusNextPage: the focused date moves forward by the visible duration,
constrained to the bounds, and the window start is derived from the old
start moved forward by the visible duration via constrainStart (which reads
the focused date of the closure, the value before the update). -/
def focusNextPage (cfg : Config) (s : CalState) : CalState :=
  let start := s.startDate.addDays cfg.visibleDuration
  { focusedDate :=
      constrainValue (s.focusedDate.addDays cfg.visibleDuration)
        cfg.minValue cfg.maxValue,
    startDate :=
      constrainStart s.focusedDate start cfg.visibleDuration
        cfg.minValue cfg.maxValue }

/-- focusPreviousPage: the mirror image of focusNextPage. -/
def focusPreviousPage (cfg : Config) (s : CalState) : CalState :=
  let start := s.startDate.addDays (-(cfg.visibleDuration : Int))
  { focusedDate :=
      constrainValue (s.focusedDate.addDays (-(cfg.visibleDuration : Int)))
        cfg.minValue cfg.maxValue,
    startDate :=
      constrainStart s.focusedDate start cfg.visibleDuration
        cfg.minValue cfg.maxValue }

/-- The state operations the invariants quantify over: focusCell (also
reached through setFocusedDate), day navigation, page navigation, and the
per-render reconciliation pass. -/
inductive Op where
  | focusCell (date : CalendarDate)
  | focusNextDay
  | focusPreviousDay
  | focusNextPage
  | focusPreviousPage
  | reconcile
deriving DecidableEq, Repr

/-- Dispatch of an operation on the state. -/
def applyOp (cfg : Config) (s : CalState) : Op → CalState
  | .focusCell date => focusCell cfg s date
  | .focusNextDay => focusNextDay cfg s
  | .focusPreviousDay => focusPreviousDay cfg s
  | .focusNextPage => focusNextPage cfg s
  | .focusPreviousPage => focusPreviousPage cfg s
  | .reconcile => reconcileOnce cfg s

/-- The initial state of the hook with the default center alignment: the
default focused date is constrained to the bounds and the window is
centered around it. -/
def initState (cfg : Config) (defaultFocused : CalendarDate) : CalState :=
  let f := constrainValue defaultFocused cfg.minValue cfg.maxValue
  { focusedDate := f,
    startDate := alignCenter f cfg.visibleDuration cfg.minValue cfg.maxValue }

/-- The focused date respects the given bounds: not before minValue and not
after maxValue. -/
def inBounds (cfg : Config) (d : CalendarDate) : Bool :=
  !(isInvalid d cfg.minValue cfg.maxValue)

/-- The bounds are a well-formed interval: when both are given, minValue is
not after maxValue. -/
def boundsWellFormed (cfg : Config) : Bool :=
  match cfg.minValue, cfg.maxValue with
  | some m, some M => decide (m.day ≤ M.day)
  | _, _ => true

/-- The visible window of the state contains the focused date:
startDate is not after it and it is strictly before startDate plus the
visible duration. -/
def containsFocused (cfg : Config) (s : CalState) : Bool :=
  decide (s.startDate.day ≤ s.focusedDate.day) &&
  decide (s.focusedDate.day < s.startDate.day + (cfg.visibleDuration : Int))

/-- setValue of the hook: when neither disabled nor read only, the new date
is converted into the calendar of the current value (Gregorian when there
is none) and emitted, preserving the time of day of the current value when
it has one.  The result is the emitted value, or none when no update is
performed.  isDisabled and isReadOnly are passed as the first and second
component. -/
def setValue (isDisabled isReadOnly : Bool) (value : Option DateValue)
    (newValue : CalendarDate) : Option DateValue :=
  if !isDisabled && !isReadOnly then
    let converted := toCalendar
      (match value with
        | some v => v.calendar
        | none => gregorian) newValue
    match value with
    | some v => if v.hour.isSome then some (v.set converted) else some converted.toDateValue
    | none => some converted.toDateValue
  else
    none

/-- selectDate of the hook: pass the date to setValue. -/
def selectDate (isDisabled isReadOnly : Bool) (value : Option DateValue)
    (date : CalendarDate) : Option DateValue :=
  setValue isDisabled isReadOnly value date

/-- selectFocusedDate of the hook: pass the focused date to setValue. -/
def selectFocusedDate (isDisabled isReadOnly : Bool) (value : Option DateValue)
    (s : CalState) : Option DateValue :=
  setValue isDisabled isReadOnly value s.focusedDate

/-- isCellDisabled of the hook: the calendar is disabled, or the date lies
before the window start, or after the window end, or outside the bounds. -/
def isCellDisabled (isDisabled : Bool) (cfg : Config) (s : CalState)
    (date : CalendarDate) : Bool :=
  isDisabled ||
  decide (date.compare s.startDate < 0) ||
  decide (date.compare (endDate cfg s) > 0) ||
  isInvalid date cfg.minValue cfg.maxValue

/-- isCellUnavailable of the hook: the optional unavailability predicate of
the props, when given, applied to the date. -/
def isCellUnavailable (isDateUnavailable : Option (CalendarDate → Bool))
    (date : CalendarDate) : Bool :=
  match isDateUnavailable with
  | some p => p date
  | none => false

/-- isSelected of the hook: a value is selected, the date is the same day
as the value, and the cell is neither disabled nor unavailable. -/
def isSelected (isDisabled : Bool) (cfg : Config) (s : CalState)
    (calendarDateValue : Option CalendarDate)
    (isDateUnavailable : Option (CalendarDate → Bool))
    (date : CalendarDate) : Bool :=
  (match calendarDateValue with
    | some v => isSameDay date v
    | none => false) &&
  !(isCellDisabled isDisabled cfg s date) &&
  !(isCellUnavailable isDateUnavailable date)

/-
Helper lemmas shared by the claim theorems.
-/

/-- Constraining a date to well-formed bounds produces a date within the
bounds. -/
lemma inBounds_constrainValue (cfg : Config) (hwf : boundsWellFormed cfg = true)
    (d : CalendarDate) :
    inBounds cfg (constrainValue d cfg.minValue cfg.maxValue) = true := by
  obtain ⟨mn, mx, dur⟩ := cfg
  cases mn <;> cases mx <;>
    simp_all [inBounds, isInvalid, constrainValue, toCalendar, CalendarDate.compare,
      boundsWellFormed] <;>
    split_ifs <;> simp_all

/-- Constraining to the bounds is idempotent. -/
lemma constrainValue_idem (mn mx : Option CalendarDate) (d : CalendarDate) :
    constrainValue (constrainValue d mn mx) mn mx = constrainValue d mn mx := by
  cases mn <;> cases mx <;>
    simp_all [constrainValue, toCalendar, CalendarDate.compare] <;>
    split_ifs <;> simp_all

/-- Every operation leaves the focused date within well-formed bounds. -/
lemma applyOp_inBounds (cfg : Config) (hwf : boundsWellFormed cfg = true)
    (s : CalState) (op : Op) :
    inBounds cfg ((applyOp cfg s op).focusedDate) = true := by
  cases op <;>
    simp only [applyOp, focusCell, focusNextDay, focusPreviousDay, focusNextPage,
      focusPreviousPage, reconcileOnce]
  case focusCell date => exact inBounds_constrainValue cfg hwf date
  case focusNextDay => exact inBounds_constrainValue cfg hwf _
  case focusPreviousDay => exact inBounds_constrainValue cfg hwf _
  case focusNextPage => exact inBounds_constrainValue cfg hwf _
  case focusPreviousPage => exact inBounds_constrainValue cfg hwf _
  case reconcile =>
    cases hI : isInvalid s.focusedDate cfg.minValue cfg.maxValue
    · simp only [hI, Bool.false_eq_true, if_false]
      split_ifs <;> simp [inBounds, hI]
    · simp only [hI, if_true]
      exact inBounds_constrainValue cfg hwf _

/-- Reconciling a state whose focused date is within the bounds yields a
window containing the focused date, when the visible duration is positive. -/
lemma reconcileOnce_contains (cfg : Config) (hdur : 0 < cfg.visibleDuration)
    (s : CalState)
    (hval : isInvalid s.focusedDate cfg.minValue cfg.maxValue = false) :
    containsFocused cfg (reconcileOnce cfg s) = true := by
  obtain ⟨f, st⟩ := s
  simp only [reconcileOnce, hval, if_false, Bool.false_eq_true, alignEnd, alignStart,
    CalendarDate.compare, CalendarDate.addDays, containsFocused]
  split_ifs <;> simp_all <;> omega

/-- A second reconciliation pass on a state whose focused date is within
the bounds is the identity. -/
lemma reconcileOnce_fix (cfg : Config) (s : CalState)
    (hval : isInvalid s.focusedDate cfg.minValue cfg.maxValue = false) :
    reconcileOnce cfg (reconcileOnce cfg s) = reconcileOnce cfg s := by
  obtain ⟨f, st⟩ := s
  simp only [reconcileOnce, alignEnd, alignStart, CalendarDate.compare,
    CalendarDate.addDays] at *
  simp only [hval, if_false, Bool.false_eq_true]
  split_ifs <;> simp_all [CalendarDate.mk.injEq] <;> omega

/-- Folding any operation sequence over a state whose focused date is
within well-formed bounds keeps the focused date within the bounds. -/
lemma foldl_inBounds (cfg : Config) (hwf : boundsWellFormed cfg = true)
    (ops : List Op) (s : CalState) (hs : inBounds cfg s.focusedDate = true) :
    inBounds cfg ((ops.foldl (applyOp cfg) s).focusedDate) = true := by
  induction ops generalizing s with
  | nil => exact hs
  | cons op ops ih => exact ih _ (applyOp_inBounds cfg hwf s op)

/-- Claim C1: for every sequence of state operations (focusCell, day
navigation, page navigation, per-render reconciliation) from the initial
state, when the given bounds form a well-formed interval, the focused date
held in state never lies before minValue nor after maxValue. -/
theorem focusedDate_within_bounds (cfg : Config)
    (hwf : boundsWellFormed cfg = true) (d : CalendarDate) (ops : List Op) :
    inBounds cfg ((ops.foldl (applyOp cfg) (initState cfg d)).focusedDate) = true :=
  foldl_inBounds cfg hwf ops (initState cfg d) (inBounds_constrainValue cfg hwf d)

/-- Witness for C1 at a concrete configuration, start date and operation
sequence. -/
theorem focusedDate_within_bounds_witness :
    boundsWellFormed ⟨some ⟨"gregory", 0⟩, some ⟨"gregory", 30⟩, 7⟩ = true ∧
    inBounds ⟨some ⟨"gregory", 0⟩, some ⟨"gregory", 30⟩, 7⟩
      (([Op.focusNextPage, Op.focusCell ⟨"gregory", -5⟩, Op.reconcile,
          Op.focusPreviousDay].foldl
        (applyOp ⟨some ⟨"gregory", 0⟩, some ⟨"gregory", 30⟩, 7⟩)
        (initState ⟨some ⟨"gregory", 0⟩, some ⟨"gregory", 30⟩, 7⟩
          ⟨"gregory", 100⟩)).focusedDate) = true :=
  ⟨by decide, focusedDate_within_bounds _ (by decide) _ _⟩

/-- Claim C3: in every state the visible range end equals the start plus
the visible duration minus one day; in particular after focusNextPage or
focusPreviousPage followed by the render reconciliation the window length,
end minus start plus one day, is still exactly the visible duration. -/
theorem visibleRange_length_eq_duration (cfg : Config) (s : CalState) :
    (endDate cfg s).day = s.startDate.day + (cfg.visibleDuration : Int) - 1 ∧
    (endDate cfg (reconcileOnce cfg (focusNextPage cfg s))).day -
      (reconcileOnce cfg (focusNextPage cfg s)).startDate.day + 1 =
      (cfg.visibleDuration : Int) ∧
    (endDate cfg (reconcileOnce cfg (focusPreviousPage cfg s))).day -
      (reconcileOnce cfg (focusPreviousPage cfg s)).startDate.day + 1 =
      (cfg.visibleDuration : Int) := by
  refine ⟨?_, ?_, ?_⟩ <;> simp [endDate, CalendarDate.addDays] <;> omega

/-- Claim C9: when isDisabled or isReadOnly holds, selectDate and
selectFocusedDate perform no update and emit no change. -/
theorem setValue_noop_when_disabled_or_readOnly (isDisabled isReadOnly : Bool)
    (value : Option DateValue) (d : CalendarDate) (s : CalState)
    (h : isDisabled = true ∨ isReadOnly = true) :
    selectDate isDisabled isReadOnly value d = none ∧
    selectFocusedDate isDisabled isReadOnly value s = none := by
  rcases h with h | h <;> subst h <;>
    simp [selectDate, selectFocusedDate, setValue]

/-- Witness for C9 at a concrete disabled configuration. -/
theorem setValue_noop_witness :
    (true = true ∨ false = true) ∧
    selectDate true false none ⟨"gregory", 5⟩ = none ∧
    selectFocusedDate true false none ⟨⟨"gregory", 5⟩, ⟨"gregory", 1⟩⟩ = none :=
  ⟨Or.inl rfl,
    setValue_noop_when_disabled_or_readOnly true false none ⟨"gregory", 5⟩
      ⟨⟨"gregory", 5⟩, ⟨"gregory", 1⟩⟩ (Or.inl rfl)⟩

/-- Claim C10: a date strictly before the window start or strictly after
the window end is reported disabled by isCellDisabled, whatever the bounds
and the disabled flag; consequently isSelected is false for such a date
even when it is the same day as the selected value. -/
theorem outside_range_cell_disabled_not_selected (isDisabled : Bool)
    (cfg : Config) (s : CalState) (date : CalendarDate)
    (h : date.compare s.startDate < 0 ∨ date.compare (endDate cfg s) > 0) :
    isCellDisabled isDisabled cfg s date = true ∧
    ∀ (v : Option CalendarDate) (u : Option (CalendarDate → Bool)),
      isSelected isDisabled cfg s v u date = false := by
  have hd : isCellDisabled isDisabled cfg s date = true := by
    rcases h with h | h <;> simp [isCellDisabled, h]
  refine ⟨hd, fun v u => ?_⟩
  cases v <;> simp [isSelected, hd]

/-- Witness for C10: the day before the window start, equal as a day to the
selected value and within the (absent) bounds, is disabled and not
selected. -/
theorem outside_range_witness :
    ((⟨"gregory", 3⟩ : CalendarDate).compare
        (⟨⟨"gregory", 10⟩, ⟨"gregory", 5⟩⟩ : CalState).startDate < 0 ∨
      (⟨"gregory", 3⟩ : CalendarDate).compare
        (endDate ⟨none, none, 7⟩ ⟨⟨"gregory", 10⟩, ⟨"gregory", 5⟩⟩) > 0) ∧
    isCellDisabled false ⟨none, none, 7⟩ ⟨⟨"gregory", 10⟩, ⟨"gregory", 5⟩⟩
      ⟨"gregory", 3⟩ = true ∧
    isSelected false ⟨none, none, 7⟩ ⟨⟨"gregory", 10⟩, ⟨"gregory", 5⟩⟩
      (some ⟨"hebrew", 3⟩) none ⟨"gregory", 3⟩ = false :=
  ⟨Or.inl (by decide),
    (outside_range_cell_disabled_not_selected false ⟨none, none, 7⟩
      ⟨⟨"gregory", 10⟩, ⟨"gregory", 5⟩⟩ ⟨"gregory", 3⟩ (Or.inl (by decide))).1,
    (outside_range_cell_disabled_not_selected false ⟨none, none, 7⟩
      ⟨⟨"gregory", 10⟩, ⟨"gregory", 5⟩⟩ ⟨"gregory", 3⟩ (Or.inl (by decide))).2
      (some ⟨"hebrew", 3⟩) none⟩

/-- Validity of a date against the bounds depends only on its absolute
day, not on its calendar system. -/
lemma isInvalid_toCalendar (c : String) (d : CalendarDate)
    (mn mx : Option CalendarDate) :
    isInvalid (toCalendar c d) mn mx = isInvalid d mn mx := by
  cases mn <;> cases mx <;> simp [isInvalid, toCalendar, CalendarDate.compare]

/-- Claim C2: after the reconciliation pass that follows any state
operation, and after the pass that follows a calendar change of a state
whose focused date was within the bounds, the visible window contains the
focused date: startDate is not after it and it lies strictly before
startDate plus the visibleDuration. -/
theorem focusedDate_within_visibleRange (cfg : Config)
    (hwf : boundsWellFormed cfg = true) (hdur : 0 < cfg.visibleDuration)
    (s : CalState) :
    (∀ op : Op,
      containsFocused cfg (reconcileOnce cfg (applyOp cfg s op)) = true) ∧
    (inBounds cfg s.focusedDate = true →
      ∀ lastIdentifier identifier : String,
        containsFocused cfg
          (reconcileOnce cfg
            (calendarChange cfg lastIdentifier identifier s)) = true) := by
  constructor
  · intro op
    apply reconcileOnce_contains cfg hdur
    have h := applyOp_inBounds cfg hwf s op
    simpa [inBounds] using h
  · intro hb lastIdentifier identifier
    apply reconcileOnce_contains cfg hdur
    simp only [calendarChange]
    split_ifs
    · simpa [isInvalid_toCalendar, inBounds] using hb
    · simpa [inBounds] using hb

/-- Witness for C2 at a concrete configuration, state, operation and
calendar change. -/
theorem focusedDate_within_visibleRange_witness :
    containsFocused ⟨some ⟨"gregory", 0⟩, some ⟨"gregory", 30⟩, 7⟩
      (reconcileOnce ⟨some ⟨"gregory", 0⟩, some ⟨"gregory", 30⟩, 7⟩
        (applyOp ⟨some ⟨"gregory", 0⟩, some ⟨"gregory", 30⟩, 7⟩
          ⟨⟨"gregory", 10⟩, ⟨"gregory", 8⟩⟩ Op.focusNextDay)) = true ∧
    containsFocused ⟨some ⟨"gregory", 0⟩, some ⟨"gregory", 30⟩, 7⟩
      (reconcileOnce ⟨some ⟨"gregory", 0⟩, some ⟨"gregory", 30⟩, 7⟩
        (calendarChange ⟨some ⟨"gregory", 0⟩, some ⟨"gregory", 30⟩, 7⟩
          "gregory" "hebrew" ⟨⟨"gregory", 10⟩, ⟨"gregory", 8⟩⟩)) = true :=
  ⟨(focusedDate_within_visibleRange _ (by decide) (by decide)
      ⟨⟨"gregory", 10⟩, ⟨"gregory", 8⟩⟩).1 Op.focusNextDay,
    (focusedDate_within_visibleRange _ (by decide) (by decide)
      ⟨⟨"gregory", 10⟩, ⟨"gregory", 8⟩⟩).2 (by decide) "gregory" "hebrew"⟩

/-- Claim C7: during reconciliation of a state whose focused date is within
the bounds, when the focused date precedes the window start the window is
realigned with alignEnd so that the focused date is its end day, and when
the focused date is at or past the window start plus the visibleDuration
the window is realigned with alignStart so that the focused date is its
start day. -/
theorem reconcile_realigns_window (cfg : Config) (s : CalState)
    (hval : isInvalid s.focusedDate cfg.minValue cfg.maxValue = false) :
    (s.focusedDate.compare s.startDate < 0 →
      reconcileOnce cfg s =
        { s with startDate :=
            alignEnd s.focusedDate cfg.visibleDuration cfg.minValue cfg.maxValue } ∧
      (endDate cfg (reconcileOnce cfg s)).day = s.focusedDate.day) ∧
    (s.focusedDate.compare (s.startDate.addDays cfg.visibleDuration) ≥ 0 →
      reconcileOnce cfg s =
        { s with startDate :=
            alignStart s.focusedDate cfg.visibleDuration cfg.minValue cfg.maxValue } ∧
      (reconcileOnce cfg s).startDate.day = s.focusedDate.day) := by
  constructor
  · intro hlt
    have heq : reconcileOnce cfg s =
        { s with startDate :=
            alignEnd s.focusedDate cfg.visibleDuration cfg.minValue cfg.maxValue } := by
      simp [reconcileOnce, hval, hlt]
    refine ⟨heq, ?_⟩
    rw [heq]
    simp only [endDate, alignEnd, CalendarDate.addDays]
    omega
  · intro hge
    have hnlt : ¬ s.focusedDate.compare s.startDate < 0 := by
      simp only [CalendarDate.compare, CalendarDate.addDays] at hge ⊢
      omega
    have heq : reconcileOnce cfg s =
        { s with startDate :=
            alignStart s.focusedDate cfg.visibleDuration cfg.minValue cfg.maxValue } := by
      simp [reconcileOnce, hval, hnlt, hge]
    refine ⟨heq, ?_⟩
    rw [heq]
    simp [alignStart]

/-- Witness for C7: a focused date before the window becomes the window end
day, and a focused date past the window becomes the window start day. -/
theorem reconcile_realigns_window_witness :
    (endDate ⟨none, none, 7⟩
      (reconcileOnce ⟨none, none, 7⟩
        ⟨⟨"gregory", 0⟩, ⟨"gregory", 10⟩⟩)).day = 0 ∧
    (reconcileOnce ⟨none, none, 7⟩
      ⟨⟨"gregory", 20⟩, ⟨"gregory", 10⟩⟩).startDate.day = 20 :=
  ⟨((reconcile_realigns_window ⟨none, none, 7⟩
      ⟨⟨"gregory", 0⟩, ⟨"gregory", 10⟩⟩ (by decide)).1 (by decide)).2,
    ((reconcile_realigns_window ⟨none, none, 7⟩
      ⟨⟨"gregory", 20⟩, ⟨"gregory", 10⟩⟩ (by decide)).2 (by decide)).2⟩

/-- Counterexample to C8 as stated: a state whose focused date is both out
of bounds and ahead of the visible window.  The first reconciliation pass
only clamps the focused date (realignment sits in an else branch), so a
second pass still changes the state: one pass is not idempotent. -/
theorem reconcileOnce_not_idempotent :
    reconcileOnce ⟨some ⟨"gregory", 0⟩, some ⟨"gregory", 150⟩, 10⟩
      (reconcileOnce ⟨some ⟨"gregory", 0⟩, some ⟨"gregory", 150⟩, 10⟩
        ⟨⟨"gregory", 200⟩, ⟨"gregory", 100⟩⟩) ≠
    reconcileOnce ⟨some ⟨"gregory", 0⟩, some ⟨"gregory", 150⟩, 10⟩
      ⟨⟨"gregory", 200⟩, ⟨"gregory", 100⟩⟩ := by decide

/-- Claim C8 amended: two reconciliation passes reach a fixpoint, so a
third application equals the second; and on states whose focused date is
already within the bounds a single pass is idempotent. -/
theorem reconcile_fixpoint_after_two (cfg : Config) (s : CalState) :
    reconcileOnce cfg (reconcileOnce cfg (reconcileOnce cfg s)) =
      reconcileOnce cfg (reconcileOnce cfg s) ∧
    (isInvalid s.focusedDate cfg.minValue cfg.maxValue = false →
      reconcileOnce cfg (reconcileOnce cfg s) = reconcileOnce cfg s) := by
  constructor
  · cases hI : isInvalid s.focusedDate cfg.minValue cfg.maxValue
    · rw [reconcileOnce_fix cfg s hI, reconcileOnce_fix cfg s hI]
    · have h1 : reconcileOnce cfg s =
          { s with focusedDate :=
              constrainValue s.focusedDate cfg.minValue cfg.maxValue } := by
        simp [reconcileOnce, hI]
      cases hI2 : isInvalid (constrainValue s.focusedDate cfg.minValue cfg.maxValue)
          cfg.minValue cfg.maxValue
      · exact reconcileOnce_fix cfg (reconcileOnce cfg s) (by rw [h1]; exact hI2)
      · have h2 : reconcileOnce cfg (reconcileOnce cfg s) = reconcileOnce cfg s := by
          rw [h1]
          simp [reconcileOnce, hI2, constrainValue_idem]
        rw [h2]
        exact h2
  · exact reconcileOnce_fix cfg s

/-- Witness for C8: at a concrete in-bounds state a single pass is
idempotent. -/
theorem reconcile_fixpoint_witness :
    reconcileOnce ⟨none, none, 5⟩
      (reconcileOnce ⟨none, none, 5⟩ ⟨⟨"gregory", 7⟩, ⟨"gregory", 0⟩⟩) =
    reconcileOnce ⟨none, none, 5⟩ ⟨⟨"gregory", 7⟩, ⟨"gregory", 0⟩⟩ :=
  (reconcile_fixpoint_after_two ⟨none, none, 5⟩
    ⟨⟨"gregory", 7⟩, ⟨"gregory", 0⟩⟩).2 (by decide)

/-- Claim C6: when the active calendar identifier differs from the last
seen one, the calendar-change step converts the focused date into the new
calendar preserving its absolute day, and resets the window by
re-centering it around the converted focused date. -/
theorem calendarChange_same_day_recenter (cfg : Config)
    (lastIdentifier identifier : String) (s : CalState)
    (h : identifier ≠ lastIdentifier) :
    ((calendarChange cfg lastIdentifier identifier s).focusedDate).day =
      s.focusedDate.day ∧
    ((calendarChange cfg lastIdentifier identifier s).focusedDate).calendar =
      identifier ∧
    (calendarChange cfg lastIdentifier identifier s).startDate =
      alignCenter (calendarChange cfg lastIdentifier identifier s).focusedDate
        cfg.visibleDuration cfg.minValue cfg.maxValue := by
  simp [calendarChange, h, toCalendar]

/-- Witness for C6 at a concrete calendar switch. -/
theorem calendarChange_witness :
    ((calendarChange ⟨none, none, 30⟩ "gregory" "hebrew"
        ⟨⟨"gregory", 44⟩, ⟨"gregory", 40⟩⟩).focusedDate).day = 44 ∧
    ((calendarChange ⟨none, none, 30⟩ "gregory" "hebrew"
        ⟨⟨"gregory", 44⟩, ⟨"gregory", 40⟩⟩).focusedDate).calendar = "hebrew" ∧
    (calendarChange ⟨none, none, 30⟩ "gregory" "hebrew"
        ⟨⟨"gregory", 44⟩, ⟨"gregory", 40⟩⟩).startDate =
      alignCenter (calendarChange ⟨none, none, 30⟩ "gregory" "hebrew"
        ⟨⟨"gregory", 44⟩, ⟨"gregory", 40⟩⟩).focusedDate 30 none none :=
  calendarChange_same_day_recenter ⟨none, none, 30⟩ "gregory" "hebrew"
    ⟨⟨"gregory", 44⟩, ⟨"gregory", 40⟩⟩ (by decide)

/-- Claim C5: when neither disabled nor read only, setValue emits a value:
its calendar system is that of the original value, Gregorian when there is
none; its day is the day of the selected date; and when the original value
carries a time of day, the emitted value keeps that time of day and the
time zone. -/
theorem setValue_calendar_and_time_preservation (isDisabled isReadOnly : Bool)
    (value : Option DateValue) (d : CalendarDate)
    (hd : isDisabled = false) (hr : isReadOnly = false) :
    ∃ v : DateValue,
      setValue isDisabled isReadOnly value d = some v ∧
      v.calendar = (match value with
        | some o => o.calendar
        | none => gregorian) ∧
      v.day = d.day ∧
      ∀ o : DateValue, value = some o → o.hour.isSome = true →
        v.hour = o.hour ∧ v.timeZone = o.timeZone := by
  subst hd hr
  cases value with
  | none =>
      refine ⟨(toCalendar gregorian d).toDateValue, ?_, ?_, ?_, ?_⟩
      · simp [setValue]
      · simp [toCalendar, CalendarDate.toDateValue]
      · simp [toCalendar, CalendarDate.toDateValue]
      · intro o ho
        cases ho
  | some o =>
      cases hh : o.hour.isSome
      · refine ⟨(toCalendar o.calendar d).toDateValue, ?_, ?_, ?_, ?_⟩
        · simp [setValue, hh]
        · simp [toCalendar, CalendarDate.toDateValue]
        · simp [toCalendar, CalendarDate.toDateValue]
        · intro o2 ho2 hh2
          rw [Option.some_inj] at ho2
          subst ho2
          rw [hh] at hh2
          cases hh2
      · refine ⟨o.set (toCalendar o.calendar d), ?_, ?_, ?_, ?_⟩
        · simp [setValue, hh]
        · simp [DateValue.set]
        · simp [DateValue.set, toCalendar]
        · intro o2 ho2 _
          rw [Option.some_inj] at ho2
          subst ho2
          simp [DateValue.set]

/-- Witness for C5: a date-time value in the Hebrew calendar keeps its
calendar, hour and time zone when a Gregorian date is selected. -/
theorem setValue_preservation_witness :
    ∃ v : DateValue,
      setValue false false (some ⟨"hebrew", 5, some 3, some "UTC"⟩)
        ⟨"gregory", 42⟩ = some v ∧
      v.calendar = (match (some (⟨"hebrew", 5, some 3, some "UTC"⟩ : DateValue)) with
        | some o => o.calendar
        | none => gregorian) ∧
      v.day = (⟨"gregory", 42⟩ : CalendarDate).day ∧
      ∀ o : DateValue,
        (some (⟨"hebrew", 5, some 3, some "UTC"⟩ : DateValue)) = some o →
        o.hour.isSome = true →
        v.hour = o.hour ∧ v.timeZone = o.timeZone :=
  setValue_calendar_and_time_preservation false false
    (some ⟨"hebrew", 5, some 3, some "UTC"⟩) ⟨"gregory", 42⟩ rfl rfl

/-- Counterexample to C4 as stated: with bounds from day zero to day ten,
selectDate on day twenty emits day twenty unchanged, a date that isInvalid
reports as outside the bounds: value selection does not clamp its
argument. -/
theorem selectDate_emits_unclamped :
    selectDate false false none ⟨"gregory", 20⟩ =
      some ⟨"gregory", 20, none, none⟩ ∧
    isInvalid ⟨"gregory", 20⟩ (some ⟨"gregory", 0⟩)
      (some ⟨"gregory", 10⟩) = true := by decide

/-- Claim C4 amended: every operation is a total function (no exceptions),
and a date passed to a focus-mutating operation (focusCell, also reached
through setFocusedDate, and the focus navigation operations) outside
well-formed bounds is silently clamped: the resulting focused date lies
within the bounds.  selectDate and selectFocusedDate emit the date without
clamping. -/
theorem focus_ops_clamp_to_bounds (cfg : Config)
    (hwf : boundsWellFormed cfg = true) (s : CalState) (date : CalendarDate)
    (op : Op) :
    inBounds cfg ((focusCell cfg s date).focusedDate) = true ∧
    inBounds cfg ((applyOp cfg s op).focusedDate) = true :=
  ⟨inBounds_constrainValue cfg hwf date, applyOp_inBounds cfg hwf s op⟩

/-- Witness for C4 at a concrete configuration: a focus on day ninety-nine
with bounds from day zero to day ten ends within the bounds. -/
theorem focus_ops_clamp_witness :
    inBounds ⟨some ⟨"gregory", 0⟩, some ⟨"gregory", 10⟩, 7⟩
      ((focusCell ⟨some ⟨"gregory", 0⟩, some ⟨"gregory", 10⟩, 7⟩
        ⟨⟨"gregory", 5⟩, ⟨"gregory", 0⟩⟩ ⟨"gregory", 99⟩).focusedDate) = true ∧
    inBounds ⟨some ⟨"gregory", 0⟩, some ⟨"gregory", 10⟩, 7⟩
      ((applyOp ⟨some ⟨"gregory", 0⟩, some ⟨"gregory", 10⟩, 7⟩
        ⟨⟨"gregory", 5⟩, ⟨"gregory", 0⟩⟩ Op.focusNextPage).focusedDate) = true :=
  focus_ops_clamp_to_bounds ⟨some ⟨"gregory", 0⟩, some ⟨"gregory", 10⟩, 7⟩
    (by decide) ⟨⟨"gregory", 5⟩, ⟨"gregory", 0⟩⟩ ⟨"gregory", 99⟩ Op.focusNextPage

end ReactStately
